import Mathlib

/-!
# Verification of HdfsScanner row materialization (be/src/exec/hdfs-scanner.cc)

A shallow embedding of the row-materialization engine of the HDFS scan
operator: the interpreted tuple writer `WriteCompleteTuple`, the semantics of
the fused tuple writer built by `CodegenWriteCompleteTuple`, the batch commit
path `CommitRows`, the empty-tuple fast paths `WriteEmptyTuples`, and the
parse-error reporting functions `ReportColumnParseError` /
`ReportTupleParseError`.

Pointers into raw memory are modelled as functions from `Nat` (addresses /
indices) to values; machine integers that can be negative (field lengths) are
modelled as `Int`; the external text converter `TextConverter::WriteSlot` is
an abstract conversion function carried in the configuration (both the
interpreted path and the code generated by `CodegenWriteSlot` call into it;
per the spec the generated slot converters have the same conversion semantics
as the interpreted ones).
-/

namespace HdfsScanner

/-- Pointwise update of a function-modelled memory region. -/
def upd {α : Type} (f : Nat → α) (i : Nat) (v : α) : Nat → α :=
  fun j => if j = i then v else f j

/-- `FieldLocation` from hdfs-scanner.h: a byte span `{start, len}`.  A
negative `len` is the escape sentinel: the true length is `|len|` and the
data needs unescaping. -/
structure FieldLocation where
  start : List Char
  len : Int
deriving DecidableEq, Repr

/-- The scanner configuration relevant to tuple writing: the number of
materialized slots (`scan_node_->materialized_slots().size()`), the abstract
slot conversion function (`text_converter_->WriteSlot`, taking the slot
index, the data, the non-negative length and the need-escape flag, and
returning the written slot value together with a success flag), and the
conjunct list (`*conjuncts_`, each evaluated against the tuple placed in the
row). -/
structure ScanCfg where
  numSlots : Nat
  ws : Nat → List Char → Nat → Bool → Nat × Bool
  conjuncts : List ((Nat → Nat) → Bool)

/-- One iteration of the slot-materialization loop of
`HdfsScanner::WriteCompleteTuple` (hdfs-scanner.cc:235-248): normalize a
negative length to its absolute value setting `need_escape`, convert the
field, store the converted value in the tuple, record the per-slot error
flag, and accumulate `error_in_row`. -/
def applySlot (cfg : ScanCfg) (fields : Nat → FieldLocation) (i : Nat)
    (acc : (Nat → Nat) × (Nat → Bool) × Bool) :
    (Nat → Nat) × (Nat → Bool) × Bool :=
  let f := fields i
  let len := f.len.natAbs
  let esc := decide (f.len < 0)
  let r := cfg.ws i f.start len esc
  (upd acc.1 i r.1, upd acc.2.1 i (!r.2), acc.2.2 || !r.2)

/-- Result of a tuple-writing call: the final tuple memory, the per-slot
error-flag memory, the `*error_in_row` memory, and the boolean return value
(true iff the row passed all conjuncts). -/
structure WriteResult where
  tuple : Nat → Nat
  errorFields : Nat → Bool
  errorInRow : Bool
  accepted : Bool

/-- `HdfsScanner::WriteCompleteTuple` (hdfs-scanner.cc:228-252): sets
`*error_in_row = false`, initializes the tuple from the template
(`InitTuple`; the post-initialization tuple memory is the parameter `init`),
converts every materialized slot in order recording per-slot errors, then
attaches the tuple to the row and evaluates all conjuncts
(`ExecNode::EvalConjuncts`). -/
def WriteCompleteTuple (cfg : ScanCfg) (fields : Nat → FieldLocation)
    (init : Nat → Nat) (ef0 : Nat → Bool) : WriteResult :=
  let s := (List.range cfg.numSlots).foldl
    (fun acc i => applySlot cfg fields i acc) (init, ef0, false)
  ⟨s.1, s.2.1, s.2.2, cfg.conjuncts.all (fun c => c s.1)⟩

/-- The value written for slot `i` by the conversion function. -/
def slotVal (cfg : ScanCfg) (fields : Nat → FieldLocation) (i : Nat) : Nat :=
  (cfg.ws i (fields i).start (fields i).len.natAbs (decide ((fields i).len < 0))).1

/-- Whether conversion of slot `i` fails. -/
def slotErr (cfg : ScanCfg) (fields : Nat → FieldLocation) (i : Nat) : Bool :=
  !(cfg.ws i (fields i).start (fields i).len.natAbs (decide ((fields i).len < 0))).2

/-! ## Semantics of the fused tuple writer built by `CodegenWriteCompleteTuple`

`HdfsScanner::CodegenWriteCompleteTuple` (hdfs-scanner.cc:301-499) emits a
function whose body is a two-level loop: for each `conjunct_idx` from `0` to
`conjuncts.size()` inclusive, it materializes every slot whose
materialization order equals `conjunct_idx` (storing the per-slot error flag
and accumulating a local `error_in_row` register), then — while
`conjunct_idx < conjuncts.size()` — calls that conjunct's compiled form and
branches to a single fail-exit returning `false` when it rejects.  After the
final pseudo-index the accumulated `error_in_row` register is stored to the
`error_in_row` output and `true` is returned.  On the fail-exit nothing more
is stored: slots of later groups keep their prior memory contents and the
`error_in_row` output byte is never written.  The generated per-slot
converters (`TextConverter::CodegenWriteSlot`, external to this file) have
the same conversion semantics as the interpreted `WriteSlot`, so they are
modelled by the same abstract conversion step `applySlot`. -/

/-- One group of the fused writer's slot loop: materialize exactly the slots
whose materialization order is `k` (hdfs-scanner.cc:430-466). -/
def fusedGroup (cfg : ScanCfg) (fields : Nat → FieldLocation)
    (order : Nat → Nat) (k : Nat)
    (acc : (Nat → Nat) × (Nat → Bool) × Bool) :
    (Nat → Nat) × (Nat → Bool) × Bool :=
  (List.range cfg.numSlots).foldl
    (fun a i => if order i = k then applySlot cfg fields i a else a) acc

/-- The outer loop of the fused writer (hdfs-scanner.cc:429-495): process
group `k`, then either return `true` storing the accumulated error register
(no conjuncts left), or evaluate the next conjunct and jump to the fail-exit
(leaving the `error_in_row` memory `eir0` untouched) when it rejects. -/
def fusedRun (cfg : ScanCfg) (fields : Nat → FieldLocation)
    (order : Nat → Nat) :
    List ((Nat → Nat) → Bool) → Nat → ((Nat → Nat) × (Nat → Bool) × Bool) →
    Bool → WriteResult
  | [], k, acc, _ =>
    let a := fusedGroup cfg fields order k acc
    ⟨a.1, a.2.1, a.2.2, true⟩
  | c :: rest, k, acc, eir0 =>
    let a := fusedGroup cfg fields order k acc
    if c a.1 then fusedRun cfg fields order rest (k + 1) a eir0
    else ⟨a.1, a.2.1, eir0, false⟩

/-- Semantics of the function emitted by `HdfsScanner::CodegenWriteCompleteTuple`
for materialization order `order`: starts from the initialized tuple memory
`init` (zeroed null bytes or template copy, hdfs-scanner.cc:397-408), the
caller's error-flag memory `ef0` and `error_in_row` memory `eir0`, with the
local error register `false`. -/
def CodegenWriteCompleteTuple (cfg : ScanCfg) (order : Nat → Nat)
    (fields : Nat → FieldLocation) (init : Nat → Nat) (ef0 : Nat → Bool)
    (eir0 : Bool) : WriteResult :=
  fusedRun cfg fields order cfg.conjuncts 0 (init, ef0, false) eir0

/-! ## Characterization of the slot-materialization folds -/

/-- Apply the slot-materialization step for each index in `l`, in order. -/
def applyList (cfg : ScanCfg) (fields : Nat → FieldLocation)
    (l : List Nat) (acc : (Nat → Nat) × (Nat → Bool) × Bool) :
    (Nat → Nat) × (Nat → Bool) × Bool :=
  l.foldl (fun a i => applySlot cfg fields i a) acc

theorem applyList_tuple (cfg : ScanCfg) (fields : Nat → FieldLocation)
    (l : List Nat) (acc : (Nat → Nat) × (Nat → Bool) × Bool) (j : Nat) :
    (applyList cfg fields l acc).1 j =
      if j ∈ l then slotVal cfg fields j else acc.1 j := by
  induction l generalizing acc with
  | nil => simp [applyList]
  | cons i t ih =>
    simp only [applyList, List.foldl_cons] at *
    rw [ih]
    by_cases hjt : j ∈ t
    · simp [hjt]
    · by_cases hji : j = i
      · subst hji
        simp [hjt, applySlot, upd, slotVal]
      · simp [hjt, hji, applySlot, upd]

theorem applyList_ef (cfg : ScanCfg) (fields : Nat → FieldLocation)
    (l : List Nat) (acc : (Nat → Nat) × (Nat → Bool) × Bool) (j : Nat) :
    (applyList cfg fields l acc).2.1 j =
      if j ∈ l then slotErr cfg fields j else acc.2.1 j := by
  induction l generalizing acc with
  | nil => simp [applyList]
  | cons i t ih =>
    simp only [applyList, List.foldl_cons] at *
    rw [ih]
    by_cases hjt : j ∈ t
    · simp [hjt]
    · by_cases hji : j = i
      · subst hji
        simp [hjt, applySlot, upd, slotErr]
      · simp [hjt, hji, applySlot, upd]

theorem applyList_eir (cfg : ScanCfg) (fields : Nat → FieldLocation)
    (l : List Nat) (acc : (Nat → Nat) × (Nat → Bool) × Bool) :
    (applyList cfg fields l acc).2.2 =
      (acc.2.2 || l.any (fun i => slotErr cfg fields i)) := by
  induction l generalizing acc with
  | nil => simp [applyList]
  | cons i t ih =>
    simp only [applyList, List.foldl_cons] at *
    rw [ih]
    simp [applySlot, slotErr, Bool.or_assoc]

/-- The tuple memory after materializing exactly the slots with
materialization order `< k`, starting from `init`. -/
def partialTuple (cfg : ScanCfg) (fields : Nat → FieldLocation)
    (order : Nat → Nat) (init : Nat → Nat) (k : Nat) : Nat → Nat :=
  fun j => if j < cfg.numSlots ∧ order j < k then slotVal cfg fields j else init j

/-- The error-flag memory after materializing exactly the slots with
materialization order `< k`, starting from `ef0`. -/
def partialEf (cfg : ScanCfg) (fields : Nat → FieldLocation)
    (order : Nat → Nat) (ef0 : Nat → Bool) (k : Nat) : Nat → Bool :=
  fun j => if j < cfg.numSlots ∧ order j < k then slotErr cfg fields j else ef0 j

/-- The local error register after materializing exactly the slots with
materialization order `< k`. -/
def partialEir (cfg : ScanCfg) (fields : Nat → FieldLocation)
    (order : Nat → Nat) (k : Nat) : Bool :=
  (List.range cfg.numSlots).any
    (fun i => decide (order i < k) && slotErr cfg fields i)

theorem fusedGroup_eq_applyList (cfg : ScanCfg) (fields : Nat → FieldLocation)
    (order : Nat → Nat) (k : Nat)
    (acc : (Nat → Nat) × (Nat → Bool) × Bool) :
    fusedGroup cfg fields order k acc =
      applyList cfg fields
        ((List.range cfg.numSlots).filter (fun i => order i = k)) acc := by
  unfold fusedGroup applyList
  generalize List.range cfg.numSlots = l
  induction l generalizing acc with
  | nil => rfl
  | cons i t ih =>
    simp only [List.foldl_cons, List.filter_cons]
    by_cases h : order i = k
    · simp [h, ih]
    · simp [h, ih]

/-- Processing group `k` from the partial state at `k` yields the partial
state at `k + 1`. -/
theorem fusedGroup_partial (cfg : ScanCfg) (fields : Nat → FieldLocation)
    (order : Nat → Nat) (init : Nat → Nat) (ef0 : Nat → Bool) (k : Nat) :
    fusedGroup cfg fields order k
        (partialTuple cfg fields order init k,
         partialEf cfg fields order ef0 k,
         partialEir cfg fields order k) =
      (partialTuple cfg fields order init (k + 1),
       partialEf cfg fields order ef0 (k + 1),
       partialEir cfg fields order (k + 1)) := by
  rw [fusedGroup_eq_applyList]
  refine Prod.ext ?_ (Prod.ext ?_ ?_)
  · funext j
    rw [applyList_tuple]
    simp only [List.mem_filter, List.mem_range, decide_eq_true_eq]
    by_cases hj : j < cfg.numSlots ∧ order j = k
    · simp [hj, partialTuple, hj.1, hj.2]
    · simp only [hj, if_false, partialTuple]
      by_cases h1 : j < cfg.numSlots ∧ order j < k
      · simp [h1, h1.1, Nat.lt_succ_of_lt h1.2]
      · simp only [h1, if_false]
        have : ¬(j < cfg.numSlots ∧ order j < k + 1) := by
          rintro ⟨hjn, hlt⟩
          rcases Nat.lt_succ_iff_lt_or_eq.mp hlt with h | h
          · exact h1 ⟨hjn, h⟩
          · exact hj ⟨hjn, h⟩
        simp [this]
  · funext j
    rw [applyList_ef]
    simp only [List.mem_filter, List.mem_range, decide_eq_true_eq]
    by_cases hj : j < cfg.numSlots ∧ order j = k
    · simp [hj, partialEf, hj.1, hj.2]
    · simp only [hj, if_false, partialEf]
      by_cases h1 : j < cfg.numSlots ∧ order j < k
      · simp [h1, h1.1, Nat.lt_succ_of_lt h1.2]
      · simp only [h1, if_false]
        have : ¬(j < cfg.numSlots ∧ order j < k + 1) := by
          rintro ⟨hjn, hlt⟩
          rcases Nat.lt_succ_iff_lt_or_eq.mp hlt with h | h
          · exact h1 ⟨hjn, h⟩
          · exact hj ⟨hjn, h⟩
        simp [this]
  · rw [applyList_eir]
    simp only [partialEir]
    rw [Bool.eq_iff_iff, Bool.or_eq_true, List.any_eq_true, List.any_eq_true,
      List.any_eq_true]
    constructor
    · rintro (⟨i, hi, hp⟩ | ⟨i, hi, hp⟩)
      · simp only [Bool.and_eq_true, decide_eq_true_eq] at hp
        exact ⟨i, hi, by simp [Nat.lt_succ_of_lt hp.1, hp.2]⟩
      · simp only [List.mem_filter, List.mem_range, decide_eq_true_eq] at hi
        refine ⟨i, List.mem_range.mpr hi.1, ?_⟩
        simp [hi.2, hp, Nat.lt_succ_self]
    · rintro ⟨i, hi, hp⟩
      simp only [Bool.and_eq_true, decide_eq_true_eq] at hp
      rcases Nat.lt_succ_iff_lt_or_eq.mp hp.1 with hlt | heq
      · exact Or.inl ⟨i, hi, by simp [hlt, hp.2]⟩
      · refine Or.inr ⟨i, ?_, hp.2⟩
        simp only [List.mem_filter, List.mem_range, decide_eq_true_eq]
        exact ⟨List.mem_range.mp hi, heq⟩

theorem WriteCompleteTuple_tuple (cfg : ScanCfg) (fields : Nat → FieldLocation)
    (init : Nat → Nat) (ef0 : Nat → Bool) (j : Nat) :
    (WriteCompleteTuple cfg fields init ef0).tuple j =
      if j < cfg.numSlots then slotVal cfg fields j else init j := by
  show (applyList cfg fields (List.range cfg.numSlots) (init, ef0, false)).1 j = _
  rw [applyList_tuple]
  simp [List.mem_range]

theorem WriteCompleteTuple_ef (cfg : ScanCfg) (fields : Nat → FieldLocation)
    (init : Nat → Nat) (ef0 : Nat → Bool) (j : Nat) :
    (WriteCompleteTuple cfg fields init ef0).errorFields j =
      if j < cfg.numSlots then slotErr cfg fields j else ef0 j := by
  show (applyList cfg fields (List.range cfg.numSlots) (init, ef0, false)).2.1 j = _
  rw [applyList_ef]
  simp [List.mem_range]

theorem WriteCompleteTuple_eir (cfg : ScanCfg) (fields : Nat → FieldLocation)
    (init : Nat → Nat) (ef0 : Nat → Bool) :
    (WriteCompleteTuple cfg fields init ef0).errorInRow =
      (List.range cfg.numSlots).any (fun i => slotErr cfg fields i) := by
  show (applyList cfg fields (List.range cfg.numSlots) (init, ef0, false)).2.2 = _
  rw [applyList_eir]
  simp

theorem WriteCompleteTuple_accepted (cfg : ScanCfg)
    (fields : Nat → FieldLocation) (init : Nat → Nat) (ef0 : Nat → Bool) :
    (WriteCompleteTuple cfg fields init ef0).accepted =
      cfg.conjuncts.all
        (fun c => c (WriteCompleteTuple cfg fields init ef0).tuple) := rfl

/-- Main lemma for the fused writer: starting from the partial state at group
`k`, provided each remaining conjunct reads only slots scheduled at or before
it, the fused run accepts iff every remaining conjunct accepts the fully
materialized tuple, and on acceptance the final state is the fully
materialized partial state. -/
theorem fusedRun_spec (cfg : ScanCfg) (fields : Nat → FieldLocation)
    (order : Nat → Nat) (init : Nat → Nat) (ef0 : Nat → Bool)
    (conjs : List ((Nat → Nat) → Bool)) (k : Nat) (eir0 : Bool)
    (hdep : ∀ j c, conjs[j]? = some c → ∀ t₁ t₂ : Nat → Nat,
      (∀ i, i < cfg.numSlots → order i ≤ k + j → t₁ i = t₂ i) → c t₁ = c t₂) :
    (fusedRun cfg fields order conjs k
        (partialTuple cfg fields order init k,
         partialEf cfg fields order ef0 k,
         partialEir cfg fields order k) eir0).accepted =
      conjs.all (fun c =>
        c (partialTuple cfg fields order init (k + conjs.length + 1))) ∧
    (conjs.all (fun c =>
        c (partialTuple cfg fields order init (k + conjs.length + 1))) = true →
      fusedRun cfg fields order conjs k
          (partialTuple cfg fields order init k,
           partialEf cfg fields order ef0 k,
           partialEir cfg fields order k) eir0 =
        ⟨partialTuple cfg fields order init (k + conjs.length + 1),
         partialEf cfg fields order ef0 (k + conjs.length + 1),
         partialEir cfg fields order (k + conjs.length + 1), true⟩) := by
  induction conjs generalizing k with
  | nil =>
    simp [fusedRun, fusedGroup_partial]
  | cons c rest ih =>
    have hgroup := fusedGroup_partial cfg fields order init ef0 k
    have hc : c (partialTuple cfg fields order init (k + 1)) =
        c (partialTuple cfg fields order init (k + (rest.length + 1) + 1)) := by
      apply hdep 0 c (by simp)
      intro i hi hle
      simp only [partialTuple]
      have h1 : order i < k + 1 := by omega
      have h2 : order i < k + (rest.length + 1) + 1 := by omega
      simp [hi, h1, h2]
    have ihk := ih (k + 1) (by
      intro j cj hj t₁ t₂ hagree
      apply hdep (j + 1) cj (by simpa using hj)
      intro i hi hle
      exact hagree i hi (by omega))
    simp only [fusedRun, hgroup]
    by_cases hcv : c (partialTuple cfg fields order init (k + 1)) = true
    · rw [hcv] at hc
      simp only [hcv, if_true, List.all_cons, List.length_cons]
      have harith : k + 1 + rest.length + 1 = k + (rest.length + 1) + 1 := by omega
      rw [harith] at ihk
      refine ⟨?_, ?_⟩
      · rw [ihk.1, ← hc]
        simp
      · intro hall
        simp only [← hc, Bool.true_and] at hall
        exact ihk.2 hall
    · have hcf : c (partialTuple cfg fields order init (k + 1)) = false := by
        simpa using hcv
      rw [hcf] at hc
      simp only [hcf, if_false, List.all_cons, List.length_cons, ← hc]
      exact ⟨rfl, by simp⟩

theorem partialTuple_full (cfg : ScanCfg) (fields : Nat → FieldLocation)
    (order : Nat → Nat) (init : Nat → Nat) (ef0 : Nat → Bool)
    (horder : ∀ i, i < cfg.numSlots → order i ≤ cfg.conjuncts.length) :
    partialTuple cfg fields order init (0 + cfg.conjuncts.length + 1) =
      (WriteCompleteTuple cfg fields init ef0).tuple := by
  funext j
  rw [WriteCompleteTuple_tuple]
  simp only [partialTuple]
  by_cases hj : j < cfg.numSlots
  · have h1 := horder j hj
    have h2 : order j < cfg.conjuncts.length + 1 := by omega
    simp [hj, h2]
  · simp [hj]

theorem partialEf_full (cfg : ScanCfg) (fields : Nat → FieldLocation)
    (order : Nat → Nat) (init : Nat → Nat) (ef0 : Nat → Bool)
    (horder : ∀ i, i < cfg.numSlots → order i ≤ cfg.conjuncts.length) :
    partialEf cfg fields order ef0 (0 + cfg.conjuncts.length + 1) =
      (WriteCompleteTuple cfg fields init ef0).errorFields := by
  funext j
  rw [WriteCompleteTuple_ef]
  simp only [partialEf]
  by_cases hj : j < cfg.numSlots
  · have h1 := horder j hj
    have h2 : order j < cfg.conjuncts.length + 1 := by omega
    simp [hj, h2]
  · simp [hj]

theorem partialEir_full (cfg : ScanCfg) (fields : Nat → FieldLocation)
    (order : Nat → Nat) (init : Nat → Nat) (ef0 : Nat → Bool)
    (horder : ∀ i, i < cfg.numSlots → order i ≤ cfg.conjuncts.length) :
    partialEir cfg fields order (0 + cfg.conjuncts.length + 1) =
      (WriteCompleteTuple cfg fields init ef0).errorInRow := by
  rw [WriteCompleteTuple_eir]
  simp only [partialEir]
  rw [Bool.eq_iff_iff, List.any_eq_true, List.any_eq_true]
  constructor
  · rintro ⟨i, hi, hp⟩
    simp only [Bool.and_eq_true] at hp
    exact ⟨i, hi, hp.2⟩
  · rintro ⟨i, hi, hp⟩
    refine ⟨i, hi, ?_⟩
    have h0 := horder i (List.mem_range.mp hi)
    have h1 : order i < cfg.conjuncts.length + 1 := by omega
    simp [h1, hp]

theorem init_state_partial_zero (cfg : ScanCfg) (fields : Nat → FieldLocation)
    (order : Nat → Nat) (init : Nat → Nat) (ef0 : Nat → Bool) :
    (init, ef0, false) =
      (partialTuple cfg fields order init 0, partialEf cfg fields order ef0 0,
       partialEir cfg fields order 0) := by
  refine Prod.ext ?_ (Prod.ext ?_ ?_)
  · funext j; simp [partialTuple]
  · funext j; simp [partialEf]
  · simp [partialEir]

/-- C1 (amended): for every eligible configuration — every materialization
order value at most the number of conjuncts, and conjunct `j` reading only
slots with materialization order at most `j` — the fused writer built by
`CodegenWriteCompleteTuple` and the interpreted `WriteCompleteTuple` produce
the same accept/reject result on every field input; and whenever the row is
accepted they also produce identical final tuple bytes, identical per-slot
error flags and identical `error_in_row`.  (On a rejected row the fused
writer exits early, leaving later-group slot bytes, their error flags and
the `error_in_row` byte untouched, so full equality cannot be claimed
there.) -/
theorem fused_interp_equiv_amended (cfg : ScanCfg) (order : Nat → Nat)
    (fields : Nat → FieldLocation) (init : Nat → Nat) (ef0 : Nat → Bool)
    (eir0 : Bool)
    (horder : ∀ i, i < cfg.numSlots → order i ≤ cfg.conjuncts.length)
    (hdep : ∀ j c, cfg.conjuncts[j]? = some c → ∀ t₁ t₂ : Nat → Nat,
      (∀ i, i < cfg.numSlots → order i ≤ j → t₁ i = t₂ i) → c t₁ = c t₂) :
    (CodegenWriteCompleteTuple cfg order fields init ef0 eir0).accepted =
      (WriteCompleteTuple cfg fields init ef0).accepted ∧
    ((WriteCompleteTuple cfg fields init ef0).accepted = true →
      (∀ j, (CodegenWriteCompleteTuple cfg order fields init ef0 eir0).tuple j =
          (WriteCompleteTuple cfg fields init ef0).tuple j) ∧
      (∀ j, (CodegenWriteCompleteTuple cfg order fields init ef0 eir0).errorFields j =
          (WriteCompleteTuple cfg fields init ef0).errorFields j) ∧
      (CodegenWriteCompleteTuple cfg order fields init ef0 eir0).errorInRow =
        (WriteCompleteTuple cfg fields init ef0).errorInRow) := by
  have hspec := fusedRun_spec cfg fields order init ef0 cfg.conjuncts 0 eir0
    (fun j c hc t₁ t₂ hagree =>
      hdep j c hc t₁ t₂ (fun i hi hle => hagree i hi (by omega)))
  have hCW : CodegenWriteCompleteTuple cfg order fields init ef0 eir0 =
      fusedRun cfg fields order cfg.conjuncts 0
        (partialTuple cfg fields order init 0, partialEf cfg fields order ef0 0,
         partialEir cfg fields order 0) eir0 := by
    rw [CodegenWriteCompleteTuple,
      init_state_partial_zero cfg fields order init ef0]
  have htup := partialTuple_full cfg fields order init ef0 horder
  have hef := partialEf_full cfg fields order init ef0 horder
  have heir := partialEir_full cfg fields order init ef0 horder
  have haccI : (WriteCompleteTuple cfg fields init ef0).accepted =
      cfg.conjuncts.all (fun c =>
        c (partialTuple cfg fields order init (0 + cfg.conjuncts.length + 1))) := by
    rw [WriteCompleteTuple_accepted, htup]
  constructor
  · rw [hCW, hspec.1, haccI]
  · intro hacc
    have hall : cfg.conjuncts.all (fun c =>
        c (partialTuple cfg fields order init (0 + cfg.conjuncts.length + 1))) =
        true := by rw [← haccI]; exact hacc
    have := hspec.2 hall
    rw [hCW, this]
    exact ⟨fun j => by rw [← htup], fun j => by rw [← hef], by rw [← heir]⟩

/-- C1 (counterexample to the claim as stated): an eligible configuration —
one slot of materialization order 1 (referenced by no conjunct), one compiled
conjunct that rejects the row — and a field input on which the fused and the
interpreted writer agree on the accept/reject result but produce different
tuple bytes, different per-slot error flags and different `error_in_row`:
the fused writer rejects at the conjunct before materializing the slot,
while the interpreted writer always converts every slot first. -/
theorem fused_interp_full_equality_counterexample :
    (∀ i, i < (⟨1, fun _ _ _ _ => (42, false), [fun _ => false]⟩ : ScanCfg).numSlots →
      (fun _ => 1 : Nat → Nat) i ≤
        (⟨1, fun _ _ _ _ => (42, false), [fun _ => false]⟩ : ScanCfg).conjuncts.length) ∧
    (∀ j c, (⟨1, fun _ _ _ _ => (42, false), [fun _ => false]⟩ : ScanCfg).conjuncts[j]? =
        some c → ∀ t₁ t₂ : Nat → Nat,
      (∀ i, i < (⟨1, fun _ _ _ _ => (42, false), [fun _ => false]⟩ : ScanCfg).numSlots →
        (fun _ => 1 : Nat → Nat) i ≤ j → t₁ i = t₂ i) → c t₁ = c t₂) ∧
    (CodegenWriteCompleteTuple ⟨1, fun _ _ _ _ => (42, false), [fun _ => false]⟩
        (fun _ => 1) (fun _ => ⟨['x'], 1⟩) (fun _ => 0) (fun _ => false) false).accepted =
      (WriteCompleteTuple ⟨1, fun _ _ _ _ => (42, false), [fun _ => false]⟩
        (fun _ => ⟨['x'], 1⟩) (fun _ => 0) (fun _ => false)).accepted ∧
    (CodegenWriteCompleteTuple ⟨1, fun _ _ _ _ => (42, false), [fun _ => false]⟩
        (fun _ => 1) (fun _ => ⟨['x'], 1⟩) (fun _ => 0) (fun _ => false) false).tuple 0 ≠
      (WriteCompleteTuple ⟨1, fun _ _ _ _ => (42, false), [fun _ => false]⟩
        (fun _ => ⟨['x'], 1⟩) (fun _ => 0) (fun _ => false)).tuple 0 ∧
    (CodegenWriteCompleteTuple ⟨1, fun _ _ _ _ => (42, false), [fun _ => false]⟩
        (fun _ => 1) (fun _ => ⟨['x'], 1⟩) (fun _ => 0) (fun _ => false) false).errorFields 0 ≠
      (WriteCompleteTuple ⟨1, fun _ _ _ _ => (42, false), [fun _ => false]⟩
        (fun _ => ⟨['x'], 1⟩) (fun _ => 0) (fun _ => false)).errorFields 0 ∧
    (CodegenWriteCompleteTuple ⟨1, fun _ _ _ _ => (42, false), [fun _ => false]⟩
        (fun _ => 1) (fun _ => ⟨['x'], 1⟩) (fun _ => 0) (fun _ => false) false).errorInRow ≠
      (WriteCompleteTuple ⟨1, fun _ _ _ _ => (42, false), [fun _ => false]⟩
        (fun _ => ⟨['x'], 1⟩) (fun _ => 0) (fun _ => false)).errorInRow := by
  refine ⟨by decide, ?_, by decide, by decide, by decide, by decide⟩
  intro j c hc t₁ t₂ _
  match j, hc with
  | 0, hc =>
    simp only [List.getElem?_cons_zero, Option.some.injEq] at hc
    subst hc
    rfl

theorem fused_interp_equiv_amended_witness :
    (∀ i, i < (⟨1, fun _ _ _ _ => (7, true),
        [fun t => decide (5 < t 0)]⟩ : ScanCfg).numSlots →
      (fun _ => 0 : Nat → Nat) i ≤
        (⟨1, fun _ _ _ _ => (7, true),
          [fun t => decide (5 < t 0)]⟩ : ScanCfg).conjuncts.length) ∧
    (∀ j c, (⟨1, fun _ _ _ _ => (7, true),
        [fun t => decide (5 < t 0)]⟩ : ScanCfg).conjuncts[j]? = some c →
      ∀ t₁ t₂ : Nat → Nat,
        (∀ i, i < (⟨1, fun _ _ _ _ => (7, true),
            [fun t => decide (5 < t 0)]⟩ : ScanCfg).numSlots →
          (fun _ => 0 : Nat → Nat) i ≤ j → t₁ i = t₂ i) → c t₁ = c t₂) ∧
    (CodegenWriteCompleteTuple ⟨1, fun _ _ _ _ => (7, true),
        [fun t => decide (5 < t 0)]⟩ (fun _ => 0) (fun _ => ⟨['7'], 1⟩)
        (fun _ => 0) (fun _ => false) false).accepted =
      (WriteCompleteTuple ⟨1, fun _ _ _ _ => (7, true),
        [fun t => decide (5 < t 0)]⟩ (fun _ => ⟨['7'], 1⟩)
        (fun _ => 0) (fun _ => false)).accepted := by
  have hdep : ∀ j c, (⟨1, fun _ _ _ _ => (7, true),
      [fun t => decide (5 < t 0)]⟩ : ScanCfg).conjuncts[j]? = some c →
      ∀ t₁ t₂ : Nat → Nat,
        (∀ i, i < (⟨1, fun _ _ _ _ => (7, true),
            [fun t => decide (5 < t 0)]⟩ : ScanCfg).numSlots →
          (fun _ => 0 : Nat → Nat) i ≤ j → t₁ i = t₂ i) → c t₁ = c t₂ := by
    intro j c hc t₁ t₂ h
    match j, hc with
    | 0, hc =>
      simp only [List.getElem?_cons_zero, Option.some.injEq] at hc
      subst hc
      have h0 : t₁ 0 = t₂ 0 := h 0 (by decide) (by decide)
      simp [h0]
  exact ⟨by decide, hdep,
    (fused_interp_equiv_amended ⟨1, fun _ _ _ _ => (7, true),
      [fun t => decide (5 < t 0)]⟩ (fun _ => 0) (fun _ => ⟨['7'], 1⟩)
      (fun _ => 0) (fun _ => false) false (by decide) hdep).1⟩

/-- C2: `WriteCompleteTuple` returns true iff every conjunct accepts the row;
it records a per-slot conversion failure flag for every materialized slot
(all slots are always attempted, independently of earlier failures); it sets
`*error_in_row` iff at least one slot conversion failed; and the error
outputs are independent of the conjunct list (so a row can pass the
conjuncts and still be flagged). -/
theorem writeCompleteTuple_result_spec (cfg : ScanCfg)
    (fields : Nat → FieldLocation) (init : Nat → Nat) (ef0 : Nat → Bool) :
    ((WriteCompleteTuple cfg fields init ef0).accepted = true ↔
      ∀ c ∈ cfg.conjuncts,
        c (WriteCompleteTuple cfg fields init ef0).tuple = true) ∧
    (∀ i, i < cfg.numSlots →
      (WriteCompleteTuple cfg fields init ef0).errorFields i =
        slotErr cfg fields i) ∧
    ((WriteCompleteTuple cfg fields init ef0).errorInRow = true ↔
      ∃ i, i < cfg.numSlots ∧ slotErr cfg fields i = true) ∧
    (∀ conjs' : List ((Nat → Nat) → Bool),
      (WriteCompleteTuple ⟨cfg.numSlots, cfg.ws, conjs'⟩ fields init
          ef0).errorInRow =
        (WriteCompleteTuple cfg fields init ef0).errorInRow ∧
      ∀ i, (WriteCompleteTuple ⟨cfg.numSlots, cfg.ws, conjs'⟩ fields init
          ef0).errorFields i =
        (WriteCompleteTuple cfg fields init ef0).errorFields i) := by
  refine ⟨?_, ?_, ?_, ?_⟩
  · rw [WriteCompleteTuple_accepted, List.all_eq_true]
  · intro i hi
    rw [WriteCompleteTuple_ef]
    simp [hi]
  · rw [WriteCompleteTuple_eir, List.any_eq_true]
    constructor
    · rintro ⟨i, hi, hp⟩
      exact ⟨i, List.mem_range.mp hi, hp⟩
    · rintro ⟨i, hi, hp⟩
      exact ⟨i, List.mem_range.mpr hi, hp⟩
  · intro conjs'
    constructor
    · rw [WriteCompleteTuple_eir, WriteCompleteTuple_eir]
      rfl
    · intro i
      rw [WriteCompleteTuple_ef, WriteCompleteTuple_ef]
      rfl

/-! ## Error / parse reporting (hdfs-scanner.cc:519-565)

`RuntimeState` and the log are modelled by a reporter configuration (the
log-capacity check `LogHasSpace`, the `abort_on_error` flag, the number of
partition keys, the stream's file name) and a reporter state (the error log,
the sticky `parse_status_`, the per-file error counter `num_errors_in_file_`
and the count registered through `ReportFileErrors`).  An error message is
modelled by its content rather than as a formatted string. -/

/-- The slot type distinctions the scanner code makes. -/
inductive SlotType where
  | timestampType
  | stringType
  | otherType
deriving DecidableEq, Repr

/-- The part of `SlotDescriptor` used by error reporting: the column
position and the slot type. -/
structure SlotDesc where
  colPos : Int
  slotType : SlotType
deriving DecidableEq, Repr

/-- An entry of the error log: either a column-level conversion-error
message (`ReportColumnParseError`, hdfs-scanner.cc:558-562: the column index
relative to the non-partition-key columns, the target type, and the raw
offending bytes) or the row-level record message logged by
`ReportTupleParseError` (hdfs-scanner.cc:530-535: file name and row
context). -/
inductive LogEntry where
  | columnMsg (colIdx : Int) (slotType : SlotType) (data : List Char)
  | rowMsg (filename : List Char) (rowIdx : Nat)
deriving DecidableEq, Repr

/-- Reporter configuration: `state_->LogHasSpace()`,
`state_->abort_on_error()`, `scan_node_->num_partition_keys()`,
`stream_->filename()`. -/
structure ReporterCfg where
  logHasSpace : Bool
  abortOnError : Bool
  numPartitionKeys : Int
  filename : List Char

/-- Reporter state: the error log, the sticky `parse_status_` (`none` =
`Status::OK`), `num_errors_in_file_`, and the error count registered via
`state_->ReportFileErrors`. -/
structure ReporterState where
  errorLog : List LogEntry
  parseStatus : Option (Int × SlotType × List Char)
  numErrorsInFile : Nat
  fileErrorsReported : Nat
deriving DecidableEq, Repr

/-- `HdfsScanner::ReportColumnParseError` (hdfs-scanner.cc:550-565):
normalizes a negative length to its absolute value, and if the log has space
or abort-on-error is set, builds the column error message; logs it when the
log has space; and sets the sticky parse status to it when abort-on-error is
set and the status is currently OK. -/
def ReportColumnParseError (cfg : ReporterCfg) (desc : SlotDesc)
    (data : List Char) (len : Int) (st : ReporterState) : ReporterState :=
  let len' := if len < 0 then -len else len
  if cfg.logHasSpace || cfg.abortOnError then
    let msg : Int × SlotType × List Char :=
      (desc.colPos - cfg.numPartitionKeys, desc.slotType, data.take len'.toNat)
    let st1 := if cfg.logHasSpace then
        { st with errorLog :=
            st.errorLog ++ [LogEntry.columnMsg msg.1 msg.2.1 msg.2.2] }
      else st
    if cfg.abortOnError ∧ st1.parseStatus = none then
      { st1 with parseStatus := some msg }
    else st1
  else st

/-- The flag-scanning loop of `ReportTupleParseError`
(hdfs-scanner.cc:521-527): for each slot index in `l` whose error flag is
set, report the column error (the raw, possibly negative, `fields[i].len` is
passed through) and reset the flag. -/
def reportLoop (cfg : ReporterCfg) (slots : Nat → SlotDesc)
    (fields : Nat → FieldLocation) (l : List Nat)
    (a : ReporterState × (Nat → Bool)) : ReporterState × (Nat → Bool) :=
  l.foldl
    (fun (a : ReporterState × (Nat → Bool)) i =>
      if a.2 i then
        (ReportColumnParseError cfg (slots i) (fields i).start (fields i).len
          a.1, upd a.2 i false)
      else a) a

/-- `HdfsScanner::ReportTupleParseError` (hdfs-scanner.cc:519-543): for each
materialized slot whose error flag is set, report the column error and reset
the flag; then log the row-level record message if the log has space;
increment `num_errors_in_file_`; under abort-on-error register one file
error; finally return whether `parse_status_` is still OK. -/
def ReportTupleParseError (cfg : ReporterCfg) (numSlots : Nat)
    (slots : Nat → SlotDesc) (fields : Nat → FieldLocation)
    (errors : Nat → Bool) (rowIdx : Nat) (st : ReporterState) :
    ReporterState × (Nat → Bool) × Bool :=
  let s := reportLoop cfg slots fields (List.range numSlots) (st, errors)
  let st2 := if cfg.logHasSpace then
      { s.1 with errorLog :=
          s.1.errorLog ++ [LogEntry.rowMsg cfg.filename rowIdx] }
    else s.1
  let st3 := { st2 with numErrorsInFile := st2.numErrorsInFile + 1 }
  let st4 := if cfg.abortOnError then
      { st3 with fileErrorsReported := st3.fileErrorsReported + 1 }
    else st3
  (st4, s.2, decide (st4.parseStatus = none))

/-- Number of column-level messages in a log. -/
def countColumnMsgs (l : List LogEntry) : Nat :=
  (l.filter (fun e => match e with
    | LogEntry.columnMsg _ _ _ => true
    | LogEntry.rowMsg _ _ => false)).length

/-- C5: for a field whose length is negative, `WriteCompleteTuple` converts
it using the absolute value of the length with unescaping enabled (both the
written slot value and the per-slot error flag come from that call); and
`ReportColumnParseError` normalizes a negative length to its absolute value,
behaving exactly as if called with the positive length. -/
theorem negative_length_escape_spec (cfg : ScanCfg)
    (fields : Nat → FieldLocation) (init : Nat → Nat) (ef0 : Nat → Bool)
    (i : Nat) (hi : i < cfg.numSlots) (hneg : (fields i).len < 0) :
    (WriteCompleteTuple cfg fields init ef0).tuple i =
      (cfg.ws i (fields i).start (fields i).len.natAbs true).1 ∧
    (WriteCompleteTuple cfg fields init ef0).errorFields i =
      !(cfg.ws i (fields i).start (fields i).len.natAbs true).2 ∧
    (∀ (rcfg : ReporterCfg) (desc : SlotDesc) (data : List Char)
        (st : ReporterState) (len : Int), len < 0 →
      ReportColumnParseError rcfg desc data len st =
        ReportColumnParseError rcfg desc data (-len) st) := by
  refine ⟨?_, ?_, ?_⟩
  · rw [WriteCompleteTuple_tuple]
    simp [hi, slotVal, hneg]
  · rw [WriteCompleteTuple_ef]
    simp [hi, slotErr, hneg]
  · intro rcfg desc data st len hlen
    unfold ReportColumnParseError
    have h1 : (if len < 0 then -len else len) = -len := if_pos hlen
    have h2 : (if -len < 0 then -(-len) else -len) = -len := by
      rw [if_neg (by omega)]
    rw [h1, h2]

theorem negative_length_escape_spec_witness :
    0 < (⟨1, fun _ _ l e => (l + (if e then 100 else 0), true), []⟩ :
        ScanCfg).numSlots ∧
    ((fun _ => (⟨['a', 'b'], -2⟩ : FieldLocation)) 0).len < 0 ∧
    (WriteCompleteTuple
        ⟨1, fun _ _ l e => (l + (if e then 100 else 0), true), []⟩
        (fun _ => ⟨['a', 'b'], -2⟩) (fun _ => 0) (fun _ => false)).tuple 0 =
      ((⟨1, fun _ _ l e => (l + (if e then 100 else 0), true), []⟩ :
        ScanCfg).ws 0 ((fun _ => (⟨['a', 'b'], -2⟩ : FieldLocation)) 0).start
        ((fun _ => (⟨['a', 'b'], -2⟩ : FieldLocation)) 0).len.natAbs true).1 := by
  refine ⟨by decide, by decide, ?_⟩
  exact (negative_length_escape_spec
    ⟨1, fun _ _ l e => (l + (if e then 100 else 0), true), []⟩
    (fun _ => ⟨['a', 'b'], -2⟩) (fun _ => 0) (fun _ => false) 0
    (by decide) (by decide)).1

theorem countColumnMsgs_append (a b : List LogEntry) :
    countColumnMsgs (a ++ b) = countColumnMsgs a + countColumnMsgs b := by
  simp [countColumnMsgs, List.filter_append]

theorem reportColumn_errorLog (cfg : ReporterCfg) (desc : SlotDesc)
    (data : List Char) (len : Int) (st : ReporterState)
    (h : cfg.logHasSpace = true) :
    (ReportColumnParseError cfg desc data len st).errorLog =
      st.errorLog ++ [LogEntry.columnMsg (desc.colPos - cfg.numPartitionKeys)
        desc.slotType (data.take (if len < 0 then -len else len).toNat)] := by
  simp only [ReportColumnParseError, h, Bool.true_or, if_true]
  split_ifs <;> rfl

theorem reportColumn_numErrors (cfg : ReporterCfg) (desc : SlotDesc)
    (data : List Char) (len : Int) (st : ReporterState) :
    (ReportColumnParseError cfg desc data len st).numErrorsInFile =
      st.numErrorsInFile := by
  simp only [ReportColumnParseError]
  split_ifs <;> rfl

theorem reportColumn_sticky (cfg : ReporterCfg) (desc : SlotDesc)
    (data : List Char) (len : Int) (st : ReporterState)
    (e : Int × SlotType × List Char) (h : st.parseStatus = some e) :
    (ReportColumnParseError cfg desc data len st).parseStatus = some e := by
  simp only [ReportColumnParseError]
  split_ifs <;> simp_all

/-- The report loop resets exactly the flags at indices in `l` and leaves
others unchanged; the resulting reporter state is the column-error report of
each flagged index of `l`, in order. -/
theorem reportLoop_spec (cfg : ReporterCfg) (slots : Nat → SlotDesc)
    (fields : Nat → FieldLocation) (l : List Nat) (st : ReporterState)
    (errors : Nat → Bool) (hnd : l.Nodup) :
    (∀ j, (reportLoop cfg slots fields l (st, errors)).2 j =
      if j ∈ l then false else errors j) ∧
    (reportLoop cfg slots fields l (st, errors)).1 =
      (l.filter (fun i => errors i)).foldl
        (fun s i => ReportColumnParseError cfg (slots i) (fields i).start
          (fields i).len s) st := by
  induction l generalizing st errors with
  | nil => exact ⟨fun j => rfl, rfl⟩
  | cons i t ih =>
    have hit : i ∉ t := (List.nodup_cons.mp hnd).1
    have hndt : t.Nodup := (List.nodup_cons.mp hnd).2
    by_cases hei : errors i = true
    · have hstep : reportLoop cfg slots fields (i :: t) (st, errors) =
          reportLoop cfg slots fields t
            (ReportColumnParseError cfg (slots i) (fields i).start
              (fields i).len st, upd errors i false) := by
        simp [reportLoop, List.foldl_cons, hei]
      have iht := ih (ReportColumnParseError cfg (slots i) (fields i).start
        (fields i).len st) (upd errors i false) hndt
      constructor
      · intro j
        rw [hstep, iht.1 j]
        by_cases hjt : j ∈ t
        · simp [hjt]
        · by_cases hji : j = i
          · subst hji
            simp [hjt, hit, upd]
          · simp [hjt, hji, upd, List.mem_cons]
      · rw [hstep, iht.2]
        have hfc : t.filter (fun x => upd errors i false x) =
            t.filter (fun x => errors x) := by
          apply List.filter_congr
          intro x hx
          have hxi : x ≠ i := fun hxi => hit (hxi ▸ hx)
          simp [upd, hxi]
        rw [hfc]
        simp [List.filter_cons, hei]
    · have hstep : reportLoop cfg slots fields (i :: t) (st, errors) =
          reportLoop cfg slots fields t (st, errors) := by
        simp [reportLoop, List.foldl_cons, hei]
      have iht := ih st errors hndt
      constructor
      · intro j
        rw [hstep, iht.1 j]
        by_cases hjt : j ∈ t
        · simp [hjt]
        · by_cases hji : j = i
          · subst hji
            simp only [Bool.not_eq_true] at hei
            simp [hjt, hei]
          · simp [hjt, hji, List.mem_cons]
      · rw [hstep, iht.2]
        simp [List.filter_cons, hei]

/-- A Boolean predicate holding at exactly one index below `n` filters
`List.range n` down to that singleton. -/
theorem range_filter_eq_single (n j : Nat) (p : Nat → Bool) (hj : j < n)
    (hset : p j = true) (huniq : ∀ i, i < n → p i = true → i = j) :
    (List.range n).filter p = [j] := by
  induction n with
  | zero => omega
  | succ m ih =>
    rw [List.range_succ, List.filter_append]
    by_cases hjm : j = m
    · subst hjm
      have h1 : (List.range j).filter p = [] := by
        rw [List.filter_eq_nil_iff]
        intro a ha
        have haj : a < j := List.mem_range.mp ha
        intro hpa
        have := huniq a (by omega) hpa
        omega
      rw [h1]
      simp [hset]
    · have hjlt : j < m := by omega
      have h1 := ih hjlt (fun i hi hp => huniq i (by omega) hp)
      rw [h1]
      have hpm : p m = false := by
        rcases Bool.eq_false_or_eq_true (p m) with h | h
        · exact absurd (huniq m (by omega) h).symm hjm
        · exact h
      simp [hpm]

theorem countColumnMsgs_column (a : Int) (b : SlotType) (c : List Char) :
    countColumnMsgs [LogEntry.columnMsg a b c] = 1 := rfl

theorem countColumnMsgs_row (f : List Char) (r : Nat) :
    countColumnMsgs [LogEntry.rowMsg f r] = 0 := rfl

theorem reportTuple_errorLog (cfg : ReporterCfg) (numSlots : Nat)
    (slots : Nat → SlotDesc) (fields : Nat → FieldLocation)
    (errors : Nat → Bool) (rowIdx : Nat) (st : ReporterState) :
    (ReportTupleParseError cfg numSlots slots fields errors rowIdx
        st).1.errorLog =
      (reportLoop cfg slots fields (List.range numSlots)
          (st, errors)).1.errorLog ++
        (if cfg.logHasSpace then [LogEntry.rowMsg cfg.filename rowIdx]
          else []) := by
  simp only [ReportTupleParseError]
  split_ifs <;> simp

theorem reportTuple_numErrors (cfg : ReporterCfg) (numSlots : Nat)
    (slots : Nat → SlotDesc) (fields : Nat → FieldLocation)
    (errors : Nat → Bool) (rowIdx : Nat) (st : ReporterState) :
    (ReportTupleParseError cfg numSlots slots fields errors rowIdx
        st).1.numErrorsInFile =
      (reportLoop cfg slots fields (List.range numSlots)
          (st, errors)).1.numErrorsInFile + 1 := by
  simp only [ReportTupleParseError]
  split_ifs <;> rfl

theorem reportTuple_flags (cfg : ReporterCfg) (numSlots : Nat)
    (slots : Nat → SlotDesc) (fields : Nat → FieldLocation)
    (errors : Nat → Bool) (rowIdx : Nat) (st : ReporterState) :
    (ReportTupleParseError cfg numSlots slots fields errors rowIdx st).2.1 =
      (reportLoop cfg slots fields (List.range numSlots) (st, errors)).2 := by
  simp only [ReportTupleParseError]

theorem reportTuple_parseStatus (cfg : ReporterCfg) (numSlots : Nat)
    (slots : Nat → SlotDesc) (fields : Nat → FieldLocation)
    (errors : Nat → Bool) (rowIdx : Nat) (st : ReporterState) :
    (ReportTupleParseError cfg numSlots slots fields errors rowIdx
        st).1.parseStatus =
      (reportLoop cfg slots fields (List.range numSlots)
          (st, errors)).1.parseStatus := by
  simp only [ReportTupleParseError]
  split_ifs <;> rfl

theorem reportTuple_ret (cfg : ReporterCfg) (numSlots : Nat)
    (slots : Nat → SlotDesc) (fields : Nat → FieldLocation)
    (errors : Nat → Bool) (rowIdx : Nat) (st : ReporterState) :
    (ReportTupleParseError cfg numSlots slots fields errors rowIdx st).2.2 =
      decide ((ReportTupleParseError cfg numSlots slots fields errors rowIdx
        st).1.parseStatus = none) := by
  simp only [ReportTupleParseError]

theorem foldReportColumn_sticky (cfg : ReporterCfg) (slots : Nat → SlotDesc)
    (fields : Nat → FieldLocation) (l : List Nat) (st : ReporterState)
    (e : Int × SlotType × List Char) (h : st.parseStatus = some e) :
    ((l.foldl (fun s i => ReportColumnParseError cfg (slots i)
        (fields i).start (fields i).len s) st).parseStatus = some e) := by
  induction l generalizing st with
  | nil => exact h
  | cons i t ih =>
    rw [List.foldl_cons]
    exact ih _ (reportColumn_sticky cfg (slots i) (fields i).start
      (fields i).len st e h)

/-- C6: for a row with exactly one flagged slot among the materialized
slots, and log capacity available, `ReportTupleParseError` logs exactly one
column-level message (not one per slot), increments the per-file error
counter by exactly one, and resets every per-slot error flag to false. -/
theorem reportTuple_single_error_spec (cfg : ReporterCfg) (numSlots : Nat)
    (slots : Nat → SlotDesc) (fields : Nat → FieldLocation)
    (errors : Nat → Bool) (rowIdx : Nat) (st : ReporterState) (j : Nat)
    (hspace : cfg.logHasSpace = true) (hj : j < numSlots)
    (hset : errors j = true)
    (huniq : ∀ i, i < numSlots → errors i = true → i = j) :
    countColumnMsgs (ReportTupleParseError cfg numSlots slots fields errors
        rowIdx st).1.errorLog = countColumnMsgs st.errorLog + 1 ∧
    (ReportTupleParseError cfg numSlots slots fields errors rowIdx
        st).1.numErrorsInFile = st.numErrorsInFile + 1 ∧
    (∀ i, i < numSlots → (ReportTupleParseError cfg numSlots slots fields
        errors rowIdx st).2.1 i = false) := by
  have hfilter : (List.range numSlots).filter (fun i => errors i) = [j] :=
    range_filter_eq_single numSlots j (fun i => errors i) hj hset huniq
  have hloop := reportLoop_spec cfg slots fields (List.range numSlots) st
    errors (List.nodup_range numSlots)
  have hL : (reportLoop cfg slots fields (List.range numSlots)
      (st, errors)).1 =
      ReportColumnParseError cfg (slots j) (fields j).start (fields j).len
        st := by
    rw [hloop.2, hfilter]
    rfl
  refine ⟨?_, ?_, ?_⟩
  · rw [reportTuple_errorLog, hL,
      reportColumn_errorLog cfg (slots j) (fields j).start (fields j).len st
        hspace, hspace, if_pos rfl, countColumnMsgs_append,
      countColumnMsgs_append, countColumnMsgs_column, countColumnMsgs_row]
  · rw [reportTuple_numErrors, hL, reportColumn_numErrors]
  · intro i hi
    rw [reportTuple_flags, hloop.1 i]
    simp [List.mem_range.mpr hi]

theorem reportTuple_single_error_spec_witness :
    (⟨true, false, 0, []⟩ : ReporterCfg).logHasSpace = true ∧
    (1 : Nat) < 2 ∧
    (fun i => decide (i = 1) : Nat → Bool) 1 = true ∧
    (∀ i, i < 2 → (fun i => decide (i = 1) : Nat → Bool) i = true → i = 1) ∧
    (ReportTupleParseError ⟨true, false, 0, []⟩ 2
        (fun _ => ⟨0, SlotType.otherType⟩) (fun _ => ⟨['z'], 1⟩)
        (fun i => decide (i = 1)) 0 ⟨[], none, 0, 0⟩).1.numErrorsInFile =
      (⟨[], none, 0, 0⟩ : ReporterState).numErrorsInFile + 1 := by
  refine ⟨by decide, by decide, by decide, by decide, ?_⟩
  exact (reportTuple_single_error_spec ⟨true, false, 0, []⟩ 2
    (fun _ => ⟨0, SlotType.otherType⟩) (fun _ => ⟨['z'], 1⟩)
    (fun i => decide (i = 1)) 0 ⟨[], none, 0, 0⟩ 1 (by decide) (by decide)
    (by decide) (by decide)).2.1

/-- C7: the parse status is sticky: once `parse_status_` is non-OK, neither
`ReportColumnParseError` (which only sets it when it is currently OK) nor
`ReportTupleParseError` ever resets it to OK; and `ReportTupleParseError`
returns true iff the parse status is still OK after reporting. -/
theorem parse_status_sticky_spec :
    (∀ (cfg : ReporterCfg) (desc : SlotDesc) (data : List Char) (len : Int)
        (st : ReporterState) (e : Int × SlotType × List Char),
      st.parseStatus = some e →
      (ReportColumnParseError cfg desc data len st).parseStatus = some e) ∧
    (∀ (cfg : ReporterCfg) (numSlots : Nat) (slots : Nat → SlotDesc)
        (fields : Nat → FieldLocation) (errors : Nat → Bool) (rowIdx : Nat)
        (st : ReporterState) (e : Int × SlotType × List Char),
      st.parseStatus = some e →
      (ReportTupleParseError cfg numSlots slots fields errors rowIdx
        st).1.parseStatus = some e) ∧
    (∀ (cfg : ReporterCfg) (numSlots : Nat) (slots : Nat → SlotDesc)
        (fields : Nat → FieldLocation) (errors : Nat → Bool) (rowIdx : Nat)
        (st : ReporterState),
      ((ReportTupleParseError cfg numSlots slots fields errors rowIdx
          st).2.2 = true ↔
        (ReportTupleParseError cfg numSlots slots fields errors rowIdx
          st).1.parseStatus = none)) := by
  refine ⟨reportColumn_sticky, ?_, ?_⟩
  · intro cfg numSlots slots fields errors rowIdx st e h
    rw [reportTuple_parseStatus,
      (reportLoop_spec cfg slots fields (List.range numSlots) st errors
        (List.nodup_range numSlots)).2]
    exact foldReportColumn_sticky cfg slots fields _ st e h
  · intro cfg numSlots slots fields errors rowIdx st
    rw [reportTuple_ret]
    exact decide_eq_true_iff

theorem parse_status_sticky_spec_witness :
    (⟨[], some (3, SlotType.stringType, ['q']), 0, 0⟩ :
        ReporterState).parseStatus = some (3, SlotType.stringType, ['q']) ∧
    (ReportTupleParseError ⟨true, true, 0, []⟩ 1
        (fun _ => ⟨0, SlotType.otherType⟩) (fun _ => ⟨['z'], 1⟩)
        (fun _ => true) 0
        ⟨[], some (3, SlotType.stringType, ['q']), 0, 0⟩).1.parseStatus =
      some (3, SlotType.stringType, ['q']) := by
  exact ⟨rfl, parse_status_sticky_spec.2.1 ⟨true, true, 0, []⟩ 1
    (fun _ => ⟨0, SlotType.otherType⟩) (fun _ => ⟨['z'], 1⟩)
    (fun _ => true) 0 ⟨[], some (3, SlotType.stringType, ['q']), 0, 0⟩
    (3, SlotType.stringType, ['q']) rfl⟩

/-! ## Batch commit path (hdfs-scanner.cc:132-152)

`RowBatch` internals are external to this file; the model keeps the current
batch's committed-row count, the `tuple_mem_` cursor offset, and the list of
batches handed to `scan_node_->AddMaterializedRowBatch` (each recorded with
its row count and its `done` flag from `AttachCompletedResources`).  The
environment of one `CommitRows` call — `batch_->AtResourceLimit()`,
`context_->cancelled()` and `state_->CheckQueryState().ok()` — is supplied
as configuration. -/

/-- Per-call environment of `CommitRows`. -/
structure CommitCfg where
  batchCapacity : Nat
  tupleByteSize : Nat
  atResourceLimit : Bool
  cancelled : Bool
  queryStateOk : Bool
deriving DecidableEq, Repr

/-- Outcome status of `CommitRows` (`Status::OK`, `Status::CANCELLED`, or
the error propagated from `CheckQueryState`). -/
inductive CommitStatus where
  | ok
  | cancelledStatus
  | queryError
deriving DecidableEq, Repr

/-- Scanner-side batch state: committed rows in the current batch, the
tuple-writing cursor, and the delivered batches. -/
structure BatchState where
  numRows : Nat
  tupleMem : Nat
  delivered : List (Nat × Bool)
deriving DecidableEq, Repr

/-- `HdfsScanner::CommitRows` (hdfs-scanner.cc:132-152): commit `n` rows to
the current batch and advance `tuple_mem_` by `n` tuple widths; if the batch
is now full or at its resource limit, attach its resources (`done = false`),
hand it to the scan node and start a new row batch (fresh cursor); then
check the cancellation flag and the query state, returning the
corresponding status. -/
def CommitRows (cfg : CommitCfg) (st : BatchState) (numRows : Nat) :
    BatchState × CommitStatus :=
  let rows := st.numRows + numRows
  let mem := st.tupleMem + cfg.tupleByteSize * numRows
  let st1 : BatchState :=
    if cfg.batchCapacity ≤ rows ∨ cfg.atResourceLimit then
      ⟨0, 0, st.delivered ++ [(rows, false)]⟩
    else ⟨rows, mem, st.delivered⟩
  if cfg.cancelled then (st1, CommitStatus.cancelledStatus)
  else if cfg.queryStateOk then (st1, CommitStatus.ok)
  else (st1, CommitStatus.queryError)

/-- `HdfsScanner::AddFinalRowBatch` (hdfs-scanner.cc:154-159): attach the
current batch's resources marked final and hand it off. -/
def AddFinalRowBatch (st : BatchState) : BatchState :=
  ⟨0, 0, st.delivered ++ [(st.numRows, true)]⟩

/-- C3: `CommitRows n` advances the committed-row count by `n` and the
tuple-writing cursor by `n` tuple widths; when the batch thereby becomes
full or is at its resource limit, it hands the batch (with all its committed
rows, marked non-final) to the scan node and starts a fresh empty batch;
after every commit it checks the cancellation flag first and the query-wide
health check second, returning the cancellation status exactly when
cancellation is observed and OK exactly when neither failure holds — so a
non-OK status is returned immediately and no further rows are produced by
this call. -/
theorem commitRows_spec (cfg : CommitCfg) (st : BatchState) (n : Nat) :
    (¬ (cfg.batchCapacity ≤ st.numRows + n ∨ cfg.atResourceLimit = true) →
      (CommitRows cfg st n).1.numRows = st.numRows + n ∧
      (CommitRows cfg st n).1.tupleMem =
        st.tupleMem + cfg.tupleByteSize * n ∧
      (CommitRows cfg st n).1.delivered = st.delivered) ∧
    ((cfg.batchCapacity ≤ st.numRows + n ∨ cfg.atResourceLimit = true) →
      (CommitRows cfg st n).1.delivered =
        st.delivered ++ [(st.numRows + n, false)] ∧
      (CommitRows cfg st n).1.numRows = 0 ∧
      (CommitRows cfg st n).1.tupleMem = 0) ∧
    ((CommitRows cfg st n).2 = CommitStatus.cancelledStatus ↔
      cfg.cancelled = true) ∧
    ((CommitRows cfg st n).2 = CommitStatus.ok ↔
      (cfg.cancelled = false ∧ cfg.queryStateOk = true)) := by
  unfold CommitRows
  by_cases hseal : cfg.batchCapacity ≤ st.numRows + n ∨ cfg.atResourceLimit = true
  · refine ⟨fun h => absurd hseal h, fun _ => ?_, ?_, ?_⟩
    · by_cases hc : cfg.cancelled = true <;>
        by_cases hq : cfg.queryStateOk = true <;>
          simp [hseal, hc, hq]
    · by_cases hc : cfg.cancelled = true <;>
        by_cases hq : cfg.queryStateOk = true <;>
          simp [hseal, hc, hq]
    · by_cases hc : cfg.cancelled = true <;>
        by_cases hq : cfg.queryStateOk = true <;>
          simp [hseal, hc, hq]
  · refine ⟨fun _ => ?_, fun h => absurd h hseal, ?_, ?_⟩
    · by_cases hc : cfg.cancelled = true <;>
        by_cases hq : cfg.queryStateOk = true <;>
          simp [hseal, hc, hq]
    · by_cases hc : cfg.cancelled = true <;>
        by_cases hq : cfg.queryStateOk = true <;>
          simp [hseal, hc, hq]
    · by_cases hc : cfg.cancelled = true <;>
        by_cases hq : cfg.queryStateOk = true <;>
          simp [hseal, hc, hq]

theorem commitRows_spec_witness :
    ¬ ((⟨10, 4, false, false, true⟩ : CommitCfg).batchCapacity ≤
        (⟨2, 8, []⟩ : BatchState).numRows + 3 ∨
      (⟨10, 4, false, false, true⟩ : CommitCfg).atResourceLimit = true) ∧
    (CommitRows ⟨10, 4, false, false, true⟩ ⟨2, 8, []⟩ 3).1.numRows =
      (⟨2, 8, []⟩ : BatchState).numRows + 3 ∧
    (CommitRows ⟨10, 4, false, false, true⟩ ⟨2, 8, []⟩ 3).2 =
      CommitStatus.ok := by
  refine ⟨by decide, ?_, by decide⟩
  exact ((commitRows_spec ⟨10, 4, false, false, true⟩ ⟨2, 8, []⟩ 3).1
    (by decide)).1

/-! ## Empty-tuple fast paths (hdfs-scanner.cc:166-226)

No file-resident slots are materialized: the rows to write carry either no
tuple at all (count(*)) or the shared template tuple.  A row's tuple slot is
modelled as `Option Nat` (`none` = no tuple set, `some t` = the template
tuple with content id `t`); conjuncts evaluate a row through its tuple slot.
The `DCHECK_GT(num_tuples, 0)` precondition of the `RowBatch` overload is
modelled as a guard: the function yields `none` when it is violated. -/

/-- `HdfsScanner::WriteEmptyTuples(RowBatch*, int)` (hdfs-scanner.cc:166-199):
requires `num_tuples > 0`; with no template tuple, commits `num_tuples`
tuple-less rows and returns `num_tuples`; with a template tuple, evaluates
the conjuncts once against a row holding the template — on rejection commits
nothing and returns 0, on acceptance commits the first row, decrements
`num_tuples`, stamps the remaining rows with the same template, and returns
the decremented count.  The result is the committed row list paired with the
returned int. -/
def WriteEmptyTuplesBatch (conjuncts : List (Option Nat → Bool))
    (tmpl : Option Nat) (batch : List (Option Nat)) (n : Nat) :
    Option (List (Option Nat) × Nat) :=
  if 0 < n then
    some (match tmpl with
      | none => (batch ++ List.replicate n none, n)
      | some t =>
        if conjuncts.all (fun c => c (some t)) then
          (batch ++ List.replicate n (some t), n - 1)
        else (batch, 0))
  else none

/-- The stamping loop of the row-cursor variant (hdfs-scanner.cc:220-223):
write the template tuple into `k` consecutive rows starting at row index
`p`. -/
def stampRows (t : Nat) : (Nat → Option Nat) → Nat → Nat → (Nat → Option Nat)
  | mem, _, 0 => mem
  | mem, p, k + 1 => stampRows t (upd mem p (some t)) (p + 1) k

/-- `HdfsScanner::WriteEmptyTuples(ScannerContext*, TupleRow*, int)`
(hdfs-scanner.cc:206-226): accepts `num_tuples = 0` (returning 0 before any
conjunct is evaluated); with no template tuple, evaluates the constant
conjuncts once against the incoming row and returns `num_tuples` or 0; with
a template tuple, sets it on the first row, evaluates the conjuncts once —
on rejection returns 0 (the first row's tuple slot stays written), on
acceptance stamps the remaining `num_tuples - 1` rows and returns
`num_tuples`.  Row memory is a function from row index to tuple slot;
`p` is the index of the incoming row. -/
def WriteEmptyTuplesRows (conjuncts : List (Option Nat → Bool))
    (tmpl : Option Nat) (mem : Nat → Option Nat) (p : Nat) (n : Nat) :
    (Nat → Option Nat) × Nat :=
  if n = 0 then (mem, 0)
  else match tmpl with
    | none => if conjuncts.all (fun c => c (mem p)) then (mem, n) else (mem, 0)
    | some t =>
      let mem1 := upd mem p (some t)
      if conjuncts.all (fun c => c (some t)) then
        (stampRows t mem1 (p + 1) (n - 1), n)
      else (mem1, 0)

theorem stampRows_char (t : Nat) (k : Nat) (mem : Nat → Option Nat) (p : Nat)
    (j : Nat) :
    stampRows t mem p k j =
      if p ≤ j ∧ j < p + k then some t else mem j := by
  induction k generalizing mem p with
  | zero =>
    have h : ¬(p ≤ j ∧ j < p + 0) := by omega
    show mem j = if p ≤ j ∧ j < p + 0 then some t else mem j
    rw [if_neg h]
  | succ m ih =>
    show stampRows t (upd mem p (some t)) (p + 1) m j = _
    rw [ih]
    by_cases h1 : p + 1 ≤ j ∧ j < p + 1 + m
    · have h2 : p ≤ j ∧ j < p + (m + 1) := by omega
      simp [h1, h2]
    · simp only [h1, if_false, upd]
      by_cases hjp : j = p
      · have h2 : p ≤ j ∧ j < p + (m + 1) := by omega
        simp [hjp, h2]
      · have h2 : (p ≤ j ∧ j < p + (m + 1)) ↔ (p + 1 ≤ j ∧ j < p + 1 + m) := by
          omega
        simp [hjp, h2, h1]

/-- C4: with a template tuple present and `n ≥ 1`, both `WriteEmptyTuples`
variants emit zero rows and report 0 when the template row fails the
conjuncts; when it passes, the batch variant commits exactly `n` rows all
holding the template tuple, and the row-cursor variant stamps exactly the
`n` consecutive rows starting at the cursor with the template tuple and
reports `n`.  In both variants the outcome depends on the conjunct list only
through its single evaluation against the template row. -/
theorem writeEmptyTuples_template_spec
    (conjuncts : List (Option Nat → Bool)) (t : Nat)
    (batch : List (Option Nat)) (mem : Nat → Option Nat) (p : Nat) (n : Nat)
    (hn : 0 < n) :
    (conjuncts.all (fun c => c (some t)) = false →
      WriteEmptyTuplesBatch conjuncts (some t) batch n = some (batch, 0) ∧
      (WriteEmptyTuplesRows conjuncts (some t) mem p n).2 = 0) ∧
    (conjuncts.all (fun c => c (some t)) = true →
      WriteEmptyTuplesBatch conjuncts (some t) batch n =
        some (batch ++ List.replicate n (some t), n - 1) ∧
      (WriteEmptyTuplesRows conjuncts (some t) mem p n).2 = n ∧
      (∀ j, (WriteEmptyTuplesRows conjuncts (some t) mem p n).1 j =
        if p ≤ j ∧ j < p + n then some t else mem j)) ∧
    (∀ conjuncts' : List (Option Nat → Bool),
      conjuncts'.all (fun c => c (some t)) =
        conjuncts.all (fun c => c (some t)) →
      WriteEmptyTuplesBatch conjuncts' (some t) batch n =
        WriteEmptyTuplesBatch conjuncts (some t) batch n ∧
      WriteEmptyTuplesRows conjuncts' (some t) mem p n =
        WriteEmptyTuplesRows conjuncts (some t) mem p n) := by
  have hn0 : ¬ n = 0 := by omega
  refine ⟨?_, ?_, ?_⟩
  · intro hfail
    constructor
    · simp [WriteEmptyTuplesBatch, hn, hfail]
    · simp [WriteEmptyTuplesRows, hn0, hfail]
  · intro hpass
    refine ⟨?_, ?_, ?_⟩
    · simp [WriteEmptyTuplesBatch, hn, hpass]
    · simp [WriteEmptyTuplesRows, hn0, hpass]
    · intro j
      simp only [WriteEmptyTuplesRows, hn0, if_false, hpass, if_true]
      rw [stampRows_char]
      by_cases h1 : p + 1 ≤ j ∧ j < p + 1 + (n - 1)
      · have h2 : p ≤ j ∧ j < p + n := by omega
        simp [h1, h2]
      · simp only [h1, if_false, upd]
        by_cases hjp : j = p
        · have h2 : p ≤ j ∧ j < p + n := by omega
          simp [hjp, h2, hn]
        · have h2 : (p ≤ j ∧ j < p + n) ↔ (p + 1 ≤ j ∧ j < p + 1 + (n - 1)) := by
            omega
          simp [hjp, h2, h1]
  · intro conjuncts' heq
    constructor
    · simp [WriteEmptyTuplesBatch, hn, heq]
    · simp [WriteEmptyTuplesRows, hn0, heq]

theorem writeEmptyTuples_template_spec_witness :
    0 < 2 ∧
    ([fun r => decide (r = some 5)] :
        List (Option Nat → Bool)).all (fun c => c (some 5)) = true ∧
    WriteEmptyTuplesBatch [fun r => decide (r = some 5)] (some 5) [] 2 =
      some ([some 5, some 5], 1) := by
  refine ⟨by decide, by decide, ?_⟩
  have h := ((writeEmptyTuples_template_spec [fun r => decide (r = some 5)]
    5 [] (fun _ => none) 0 2 (by decide)).2.1 (by decide)).1
  simpa using h

/-- C10: the two `WriteEmptyTuples` variants differ at `n = 0`: the
row-cursor (`ScannerContext`) overload accepts `n = 0` and returns 0 with
row memory untouched, without evaluating any conjunct (the result is the
same for every conjunct list and template), while the batch-level
(`RowBatch`) overload asserts `n > 0` and has no defined result at
`n = 0`. -/
theorem writeEmptyTuples_zero_asymmetry :
    (∀ (conjuncts : List (Option Nat → Bool)) (tmpl : Option Nat)
        (mem : Nat → Option Nat) (p : Nat),
      WriteEmptyTuplesRows conjuncts tmpl mem p 0 = (mem, 0)) ∧
    (∀ (conjuncts : List (Option Nat → Bool)) (tmpl : Option Nat)
        (batch : List (Option Nat)),
      WriteEmptyTuplesBatch conjuncts tmpl batch 0 = none) := by
  constructor
  · intro conjuncts tmpl mem p
    simp [WriteEmptyTuplesRows]
  · intro conjuncts tmpl batch
    simp [WriteEmptyTuplesBatch]

/-! ## Specialization eligibility and setup (hdfs-scanner.cc:92-114, 301-332,
501-517)

The compilation backend (`LlvmCodeGen`, `TextConverter::CodegenWriteSlot`,
`GenerateLlvmStruct`, `ReplaceCallSites`) is external; its per-query result
on this node (which conjuncts have a compiled form, which slot converters
could be generated, whether the typed tuple struct could be built, how many
call sites the splice replaced) is supplied as data, and the decision logic
of this file is modelled over it.  `DCHECK`s are modelled as guards whose
violation makes construction fail (`none`). -/

/-- The inputs of `CodegenWriteCompleteTuple`'s eligibility decision. -/
structure CodegenNodeInfo where
  slotTypes : List SlotType
  compactData : Bool
  hasStringSlots : Bool
  conjunctCompiled : List Bool
  slotFnOk : List Bool
  tupleStructOk : Bool
deriving DecidableEq, Repr

/-- The result-relevant behaviour of `HdfsScanner::CodegenWriteCompleteTuple`
(hdfs-scanner.cc:301-362): return NULL (`none`) when any materialized slot
is a TIMESTAMP, when string slots would need compacting, when any conjunct
lacks a compiled form, when any per-slot conversion function cannot be
generated, or when the typed tuple struct cannot be built; otherwise a fused
function is produced. -/
def CodegenWriteCompleteTupleGate (node : CodegenNodeInfo) : Option Unit :=
  if node.slotTypes.any (fun t => t = SlotType.timestampType) then none
  else if node.compactData ∧ node.hasStringSlots then none
  else if node.conjunctCompiled.any (fun b => !b) then none
  else if node.slotFnOk.any (fun b => !b) then none
  else if node.tupleStructOk then some () else none

/-- Result of `InitializeWriteTuplesFn`: the returned status (always OK) and
which per-scan-node counter was incremented. -/
structure InitOutcome where
  statusOk : Bool
  codegenDisabledInc : Bool
  codegenEnabledInc : Bool
deriving DecidableEq, Repr

/-- `HdfsScanner::InitializeWriteTuplesFn` (hdfs-scanner.cc:92-114):
fetch the cached codegen function for the file format (`none` when
specialization was not built); if absent, count codegen-disabled and return
OK; if string slots must be unescaped or compacted, count codegen-disabled
and return OK; otherwise JIT the function, count codegen-enabled, and return
OK. -/
def InitializeWriteTuplesFn (codegenFn : Option Unit)
    (hasStringSlots : Bool) (escapeChar : Char) (compactData : Bool) :
    InitOutcome :=
  match codegenFn with
  | none => ⟨true, true, false⟩
  | some _ =>
    if hasStringSlots ∧ (escapeChar ≠ Char.ofNat 0 ∨ compactData = true) then
      ⟨true, true, false⟩
    else ⟨true, false, true⟩

/-- C8: specialization ineligibility is never a query error.
`CodegenWriteCompleteTuple` returns NULL whenever a materialized slot is
TIMESTAMP, string slots must be compacted, or a conjunct lacks a compiled
form; and `InitializeWriteTuplesFn` returns an OK status on every input —
in particular when no codegen function exists it merely increments the
codegen-disabled counter and leaves the interpreted path in use. -/
theorem codegen_ineligibility_nonfatal :
    (∀ node : CodegenNodeInfo,
      (node.slotTypes.any (fun t => t = SlotType.timestampType) = true ∨
        (node.compactData = true ∧ node.hasStringSlots = true) ∨
        node.conjunctCompiled.any (fun b => !b) = true) →
      CodegenWriteCompleteTupleGate node = none) ∧
    (∀ (codegenFn : Option Unit) (hasStringSlots : Bool) (escapeChar : Char)
        (compactData : Bool),
      (InitializeWriteTuplesFn codegenFn hasStringSlots escapeChar
        compactData).statusOk = true) ∧
    (∀ (hasStringSlots : Bool) (escapeChar : Char) (compactData : Bool),
      InitializeWriteTuplesFn none hasStringSlots escapeChar compactData =
        ⟨true, true, false⟩) := by
  refine ⟨?_, ?_, ?_⟩
  · intro node h
    unfold CodegenWriteCompleteTupleGate
    rcases h with h | h | h
    · rw [if_pos h]
    · by_cases h1 : node.slotTypes.any (fun t => t = SlotType.timestampType) =
          true
      · rw [if_pos h1]
      · rw [if_neg h1, if_pos ⟨h.1, h.2⟩]
    · by_cases h1 : node.slotTypes.any (fun t => t = SlotType.timestampType) =
          true
      · rw [if_pos h1]
      · rw [if_neg h1]
        by_cases h2 : node.compactData = true ∧ node.hasStringSlots = true
        · rw [if_pos h2]
        · rw [if_neg h2, if_pos h]
  · intro codegenFn hasStringSlots escapeChar compactData
    match codegenFn with
    | none => rfl
    | some _ =>
      unfold InitializeWriteTuplesFn
      split_ifs <;> rfl
  · intro hasStringSlots escapeChar compactData
    rfl

theorem codegen_ineligibility_nonfatal_witness :
    ((⟨[SlotType.timestampType, SlotType.otherType], false, false, [true],
        [true], true⟩ : CodegenNodeInfo).slotTypes.any
      (fun t => t = SlotType.timestampType) = true ∨
      ((⟨[SlotType.timestampType, SlotType.otherType], false, false, [true],
        [true], true⟩ : CodegenNodeInfo).compactData = true ∧
       (⟨[SlotType.timestampType, SlotType.otherType], false, false, [true],
        [true], true⟩ : CodegenNodeInfo).hasStringSlots = true) ∨
      (⟨[SlotType.timestampType, SlotType.otherType], false, false, [true],
        [true], true⟩ : CodegenNodeInfo).conjunctCompiled.any
        (fun b => !b) = true) ∧
    CodegenWriteCompleteTupleGate ⟨[SlotType.timestampType,
      SlotType.otherType], false, false, [true], [true], true⟩ = none := by
  refine ⟨Or.inl (by decide), ?_⟩
  exact codegen_ineligibility_nonfatal.1 ⟨[SlotType.timestampType,
    SlotType.otherType], false, false, [true], [true], true⟩
    (Or.inl (by decide))

/-- `HdfsScanner::CodegenWriteAlignedTuples` (hdfs-scanner.cc:501-517):
requires a non-NULL fused tuple writer, splices it into the batch-level
driving routine `HDFS_SCANNER_WRITE_ALIGNED_TUPLES` via `ReplaceCallSites`,
asserts that exactly one call site was replaced (`DCHECK_EQ(replaced, 1)`,
modelled as a construction-failure guard), and finalizes the function.
`spliceReplaced` is the number of call sites the external splice replaced;
`finalizeOk` is whether `FinalizeFunction` succeeds. -/
def CodegenWriteAlignedTuples (writeCompleteTupleFn : Option Unit)
    (spliceReplaced : Nat) (finalizeOk : Bool) : Option Unit :=
  match writeCompleteTupleFn with
  | none => none
  | some _ =>
    if spliceReplaced = 1 then (if finalizeOk then some () else none)
    else none

/-- C9: splicing the fused tuple writer into the batch-level driving routine
must replace exactly one designated call site: whenever the number of
replaced call sites differs from one, `CodegenWriteAlignedTuples` fails
(returns NULL); and when exactly one site is replaced (with a fused writer
present and finalization succeeding) construction succeeds. -/
theorem codegenWriteAlignedTuples_single_call_site
    (writeCompleteTupleFn : Option Unit) (spliceReplaced : Nat)
    (finalizeOk : Bool) (h : spliceReplaced ≠ 1) :
    CodegenWriteAlignedTuples writeCompleteTupleFn spliceReplaced finalizeOk =
      none ∧
    CodegenWriteAlignedTuples (some ()) 1 true = some () := by
  constructor
  · match writeCompleteTupleFn with
    | none => rfl
    | some _ =>
      unfold CodegenWriteAlignedTuples
      rw [if_neg h]
  · rfl

theorem codegenWriteAlignedTuples_single_call_site_witness :
    (2 : Nat) ≠ 1 ∧
    CodegenWriteAlignedTuples (some ()) 2 true = none := by
  exact ⟨by decide,
    (codegenWriteAlignedTuples_single_call_site (some ()) 2 true
      (by decide)).1⟩

theorem writeCompleteTuple_result_spec_witness :
    (0 : Nat) < (⟨1, fun _ _ _ _ => (9, false), []⟩ : ScanCfg).numSlots ∧
    (WriteCompleteTuple ⟨1, fun _ _ _ _ => (9, false), []⟩
        (fun _ => ⟨['w'], 1⟩) (fun _ => 0) (fun _ => false)).errorFields 0 =
      slotErr ⟨1, fun _ _ _ _ => (9, false), []⟩ (fun _ => ⟨['w'], 1⟩) 0 := by
  exact ⟨by decide, (writeCompleteTuple_result_spec
    ⟨1, fun _ _ _ _ => (9, false), []⟩ (fun _ => ⟨['w'], 1⟩)
    (fun _ => 0) (fun _ => false)).2.1 0 (by decide)⟩

theorem writeEmptyTuples_zero_asymmetry_witness :
    WriteEmptyTuplesRows [] none (fun _ => none) 0 0 =
      ((fun _ => none : Nat → Option Nat), 0) ∧
    WriteEmptyTuplesBatch [] none [] 0 = none := by
  exact ⟨writeEmptyTuples_zero_asymmetry.1 [] none (fun _ => none) 0,
    writeEmptyTuples_zero_asymmetry.2 [] none []⟩

end HdfsScanner
